import Mathlib

/-!
Verification of the recursive Gaussian blur engine of this repository
(src/blur.rs, with the alternate module src/blur/mod.rs).

Shallow embedding conventions:
  * `f32`/`f64` arithmetic is embedded as exact arithmetic.  The filter
    passes use only ring operations and are embedded polymorphically over a
    commutative ring `R`; the engine instantiates them at `R = ℚ`, and the
    concrete counterexample evaluations at integer-valued coefficients use
    `R = ℤ` (the inclusion `ℤ → ℚ` commutes with every operation involved).
    Decimal literals of the source (`3.2795`, `0.2546`, `1.5`, `1E-12`) are
    embedded as the corresponding decimal rationals.
  * Transcendental values (`tan`, `sin`, `cos`, `exp` at the points the
    coefficient derivation needs) are supplied as explicit rational
    parameters in an `Oracle` record, since the structural claims do not
    depend on their exact values.
  * `usize`/`isize` arithmetic wraps modulo `2^64` (release-profile Rust
    semantics); `wrap64` and `usizeToIsize` embed the cast chain
    `usize → isize` where the source relies on it.
  * Slices are `List R`; in-bounds reads are embedded with `List.getD`
    (the source indexing panics out of bounds; every spot where the
    embedding and panic behaviour could differ is noted in a comment).
  * `assert!`/`assert_eq!` panics and typed failures are embedded as
    `Except` errors.
  * `while` loops are embedded as structurally recursive functions with an
    explicit fuel argument that strictly dominates the number of
    iterations; every step re-checks the loop condition first, so any
    sufficiently large fuel yields the loop's exit state.
-/

/-- One 128-bit SIMD vector of four lanes (`wide::f32x4`), lanes in exact
arithmetic over a commutative ring `R`. -/
structure V4 (R : Type) where
  x0 : R
  x1 : R
  x2 : R
  x3 : R
deriving DecidableEq

variable {R : Type} [CommRing R]

/-- Lanewise addition of `f32x4`. -/
def V4.add (a b : V4 R) : V4 R := ⟨a.x0 + b.x0, a.x1 + b.x1, a.x2 + b.x2, a.x3 + b.x3⟩

instance : Add (V4 R) := ⟨V4.add⟩

/-- Lanewise multiplication of `f32x4`. -/
def V4.mul (a b : V4 R) : V4 R := ⟨a.x0 * b.x0, a.x1 * b.x1, a.x2 * b.x2, a.x3 * b.x3⟩

instance : Mul (V4 R) := ⟨V4.mul⟩

/-- The source's `a.mul_add(b, c)`: lanewise `a * b + c`. -/
def V4.mulAdd (a b c : V4 R) : V4 R :=
  ⟨a.x0 * b.x0 + c.x0, a.x1 * b.x1 + c.x1, a.x2 * b.x2 + c.x2, a.x3 * b.x3 + c.x3⟩

/-- The source's `a.mul_neg_sub(b, c)`: lanewise `-(a * b) - c` (used by the
vertical pass for `-d1·y[n-1] - y[n-2]`). -/
def V4.mulNegSub (a b c : V4 R) : V4 R :=
  ⟨-(a.x0 * b.x0) - c.x0, -(a.x1 * b.x1) - c.x1, -(a.x2 * b.x2) - c.x2, -(a.x3 * b.x3) - c.x3⟩

/-- Broadcast of a scalar to all four lanes (`f32x4::from([v; 4])`). -/
def V4.bcast (v : R) : V4 R := ⟨v, v, v, v⟩

/-- The all-zero vector `f32x4::ZERO`. -/
def V4.zero : V4 R := V4.bcast 0

/-- The source's `shift_left_lanes::<LANES>` helper (blur.rs:590):
`output[..(4 - LANES)].copy_from_slice(&data.to_array()[LANES..])`, so lane
`l` receives `data[l + LANES]` and the top `LANES` lanes become zero; lanes
move toward LOWER indices.  (Note: Highway's `ShiftLeftLanes`, from which the
algorithm was ported, moves lanes toward HIGHER indices.) -/
def V4.shiftLeftLanes (lanes : ℕ) (data : V4 R) : V4 R :=
  match lanes with
  | 0 => data
  | 1 => ⟨data.x1, data.x2, data.x3, 0⟩
  | 2 => ⟨data.x2, data.x3, 0, 0⟩
  | 3 => ⟨data.x3, 0, 0, 0⟩
  | _ => ⟨0, 0, 0, 0⟩

/-- Read four consecutive lanes from a list (a `[..4]` slice load).  The
source panics when fewer than four elements remain; the embedding zero-fills
instead, and each call site notes when that can differ. -/
def V4.read (l : List R) (p : ℕ) : V4 R :=
  ⟨l.getD p 0, l.getD (p + 1) 0, l.getD (p + 2) 0, l.getD (p + 3) 0⟩

/-- Write four consecutive lanes into a list (a `copy_from_slice` of a
`to_array`).  `List.set` ignores out-of-range positions where the source
would panic; call sites note when that matters. -/
def V4.write (l : List R) (p : ℕ) (v : V4 R) : List R :=
  (((l.set p v.x0).set (p + 1) v.x1).set (p + 2) v.x2).set (p + 3) v.x3

/-- Reduction of a 64-bit wrapping (release-profile) `usize` computation. -/
def wrap64 (z : ℤ) : ℕ := (z % (2 ^ 64 : ℤ)).toNat

/-- Reinterpretation `usize as isize` (two's complement). -/
def usizeToIsize (u : ℕ) : ℤ := if u < 2 ^ 63 then (u : ℤ) else (u : ℤ) - 2 ^ 64

/-- The vertical pass's interior-loop bound
`(height - self.radius + 1 - V_PREFETCH_ROWS) as isize` (blur.rs:506),
with `V_PREFETCH_ROWS = 8`, evaluated with wrapping `usize` arithmetic and
then reinterpreted as `isize`.  For `height + 1 < radius + 8` the `usize`
subtraction underflows (a panic under Rust's debug profile). -/
def vInteriorBound (height radius : ℕ) : ℤ :=
  usizeToIsize (wrap64 ((height : ℤ) - (radius : ℤ) + 1 - 8))

/-- The source's `round_up_to(val, target)` = `div_ceil(val, target) * target`
(blur.rs:580), for the nonnegative arguments it is used with. -/
def roundUpTo (val target : ℕ) : ℕ := (val + target - 1) / target * target

/-- Derivation-failure kinds: the two `assert!`s of `RecursiveGaussian::new`
(blur.rs:115 and blur.rs:128).  The spec names them `InvertibleMatrixError`
and `NormalizationError`; in the source both are panics, at two distinct
sites. -/
inductive ConstructError where
  | invertibleMatrix : ConstructError
  | normalization : ConstructError
deriving DecidableEq

/-- A 3-vector over ℚ (`nalgebra::Matrix3x1<f64>`). -/
structure Vec3Q where
  x : ℚ
  y : ℚ
  z : ℚ
deriving DecidableEq

/-- A 3×3 matrix over ℚ (`nalgebra::Matrix3<f64>`), rows listed as
`from_row_slice` does. -/
structure Mat3Q where
  m00 : ℚ
  m01 : ℚ
  m02 : ℚ
  m10 : ℚ
  m11 : ℚ
  m12 : ℚ
  m20 : ℚ
  m21 : ℚ
  m22 : ℚ
deriving DecidableEq

/-- Determinant of a 3×3 matrix; in exact arithmetic `try_inverse` succeeds
exactly when this is nonzero. -/
def Mat3Q.det (a : Mat3Q) : ℚ :=
  a.m00 * (a.m11 * a.m22 - a.m12 * a.m21)
    - a.m01 * (a.m10 * a.m22 - a.m12 * a.m20)
    + a.m02 * (a.m10 * a.m21 - a.m11 * a.m20)

/-- Matrix–vector product (`a * gamma` at blur.rs:123). -/
def Mat3Q.mulVec (a : Mat3Q) (v : Vec3Q) : Vec3Q :=
  ⟨a.m00 * v.x + a.m01 * v.y + a.m02 * v.z,
   a.m10 * v.x + a.m11 * v.y + a.m12 * v.z,
   a.m20 * v.x + a.m21 * v.y + a.m22 * v.z⟩

/-- Rational stand-ins for the transcendental values used by
`RecursiveGaussian::new` at a given sigma: `t_k = tan(omega_k / 2)`,
`s_k = sin(omega_k)`, `e_k = exp(-sigma^2 * omega_k^2 / 2)`,
`cR_k = cos(omega_k * (radius + 1))`, `c_k = cos(omega_k)`, for
`k = 1, 3, 5` in that order. -/
structure Oracle where
  t1 : ℚ
  t3 : ℚ
  t5 : ℚ
  s1 : ℚ
  s3 : ℚ
  s5 : ℚ
  e1 : ℚ
  e3 : ℚ
  e5 : ℚ
  cR1 : ℚ
  cR3 : ℚ
  cR5 : ℚ
  c1 : ℚ
  c3 : ℚ
  c5 : ℚ
deriving DecidableEq

/-- Equation (57): `radius = 3.2795.mul_add(sigma, 0.2546)` (blur.rs:79). -/
def radiusF (sigma : ℚ) : ℚ := 32795 / 10000 * sigma + 2546 / 10000

/-- Equation (37): `p_1 = 1/tan(omega_1/2)`, `p_3 = -1/tan(omega_3/2)`,
`p_5 = 1/tan(omega_5/2)` (blur.rs:86). -/
def pVals (o : Oracle) : Vec3Q := ⟨1 / o.t1, -(1 / o.t3), 1 / o.t5⟩

/-- Equation (44): `r_k = ±p_k² / sin(omega_k)` with the same sign pattern
(blur.rs:91). -/
def rVals (o : Oracle) : Vec3Q :=
  ⟨(pVals o).x * (pVals o).x / o.s1,
   -((pVals o).y * (pVals o).y) / o.s3,
   (pVals o).z * (pVals o).z / o.s5⟩

/-- Equation (50): `rho_k = exp(-sigma²·omega_k²/2) * (1/radius)`
(blur.rs:98). -/
def rhoVals (sigma : ℚ) (o : Oracle) : Vec3Q :=
  ⟨o.e1 * (1 / radiusF sigma), o.e3 * (1 / radiusF sigma), o.e5 * (1 / radiusF sigma)⟩

/-- Second part of (52): the cross products `d_13`, `d_35`, `d_51`
(blur.rs:104). -/
def dCross (o : Oracle) : Vec3Q :=
  ⟨(pVals o).x * (rVals o).y - (rVals o).x * (pVals o).y,
   (pVals o).y * (rVals o).z - (rVals o).y * (pVals o).z,
   (pVals o).z * (rVals o).x - (rVals o).z * (pVals o).x⟩

/-- Equation (52), k = 5: `zeta_15 = d_35 / d_13` via `recip_d13`
(blur.rs:109). -/
def zeta15 (o : Oracle) : ℚ := (dCross o).y * (1 / (dCross o).x)

/-- Second zeta coefficient, `zeta_35 = d_51 / d_13`; see `zeta15`. -/
def zeta35 (o : Oracle) : ℚ := (dCross o).z * (1 / (dCross o).x)

/-- Equation (56): the matrix `A` (blur.rs:114). -/
def matA (o : Oracle) : Mat3Q :=
  ⟨(pVals o).x, (pVals o).y, (pVals o).z,
   (rVals o).x, (rVals o).y, (rVals o).z,
   zeta15 o, zeta35 o, 1⟩

/-- Equation (55): the vector `gamma` (blur.rs:117). -/
def gammaVec (sigma : ℚ) (o : Oracle) : Vec3Q :=
  ⟨1,
   radiusF sigma * radiusF sigma - sigma * sigma,
   zeta15 o * (rhoVals sigma o).x + zeta35 o * (rhoVals sigma o).y + (rhoVals sigma o).z⟩

/-- The `beta` the source actually computes: `let beta = a * gamma;`
(blur.rs:123) — the matrix is MULTIPLIED by `gamma`, the linear system
`A·β = γ` is not solved (`a.try_inverse()` is only asserted `is_some` at
blur.rs:115 and its result discarded). -/
def betaCode (sigma : ℚ) (o : Oracle) : Vec3Q := (matA o).mulVec (gammaVec sigma o)

/-- The normalization sum of (39):
`beta[2].mul_add(p_5, beta[0].mul_add(p_1, beta[1] * p_3))` (blur.rs:127). -/
def normSum (sigma : ℚ) (o : Oracle) : ℚ :=
  (betaCode sigma o).z * (pVals o).z
    + ((betaCode sigma o).x * (pVals o).x + (betaCode sigma o).y * (pVals o).y)

/-- Filter coefficients held by `RecursiveGaussian` (blur.rs:58), over the
scalar ring `R`.  The source stores each of `n2`, `d1` broadcast four times
and the three derived `mul_*` unroll tables; the embedding stores the six
underlying scalars and recomputes the broadcasts/tables by the same formulas
(`mulInV`, `mulPrevV`, `mulPrev2V` below), which is exactly how
blur.rs:137-170 fills them. -/
structure RecursiveGaussianG (R : Type) where
  radius : ℕ
  n2_1 : R
  n2_3 : R
  n2_5 : R
  d1_1 : R
  d1_3 : R
  d1_5 : R
deriving DecidableEq

/-- The engine's coefficient set at its actual scalar type. -/
abbrev RecursiveGaussianQ := RecursiveGaussianG ℚ

/-- The `mul_prev` table for one resonance (blur.rs:158-161), as a function
of `d = d1`: lane `l` holds the coefficient of `prev` in the expanded output
`o_l` of the sympy derivation quoted in the source. -/
def mulPrevV (d : R) : V4 R :=
  ⟨-d, d * d - 1, -(d * d) * d + 2 * d, d * d * (d * d) - 3 * (d * d) + 1⟩

/-- The `mul_prev2` table for one resonance (blur.rs:162-165). -/
def mulPrev2V (d : R) : V4 R :=
  ⟨-1, d, -(d * d) + 1, d * d * d - 2 * d⟩

/-- The `mul_in` table for one resonance (blur.rs:166-169), as a function of
`n = n2` and `d = d1`. -/
def mulInV (n d : R) : V4 R :=
  ⟨n, -d * n, d * d * n - n, -(d * d) * d * n + 2 * d * n⟩

/-- `RecursiveGaussian::new(sigma)` (blur.rs:77-180), with the
transcendental evaluations supplied by `o`.  Mirrors the source's order:
build `A`, assert it invertible (in exact arithmetic: nonzero determinant),
build `gamma`, compute `beta = a * gamma`, then assert
`(sum - 1.0).abs() < 1E-12`.  A failed `assert!` panics; embedded as the
corresponding `ConstructError`.  The stored radius is the `f64` radius
truncated `as usize`. -/
def RecursiveGaussianQ.new (sigma : ℚ) (o : Oracle) :
    Except ConstructError RecursiveGaussianQ :=
  if (matA o).det = 0 then .error .invertibleMatrix
  else if |normSum sigma o - 1| < 1 / 10 ^ 12 then
    .ok
      { radius := (radiusF sigma).floor.toNat
        n2_1 := -(betaCode sigma o).x * o.cR1
        n2_3 := -(betaCode sigma o).y * o.cR3
        n2_5 := -(betaCode sigma o).z * o.cR5
        d1_1 := -2 * o.c1
        d1_3 := -2 * o.c3
        d1_5 := -2 * o.c5 }
  else .error .normalization

/-- The six `prev`/`prev2` SIMD registers of the horizontal pass
(blur.rs:258-263), one `prev` and one `prev2` per resonance. -/
structure HState (R : Type) where
  prev_1 : V4 R
  prev_3 : V4 R
  prev_5 : V4 R
  prev2_1 : V4 R
  prev2_3 : V4 R
  prev2_5 : V4 R
deriving DecidableEq

/-- The all-zero horizontal state, as at the start of each row
(blur.rs:258-263). -/
def HState.zero : HState R := ⟨V4.zero, V4.zero, V4.zero, V4.zero, V4.zero, V4.zero⟩

/-- Lane-0 broadcast of the whole state, done between the prologue and the
unrolled interior loop (blur.rs:312-317). -/
def HState.bcast0 (st : HState R) : HState R :=
  ⟨V4.bcast st.prev_1.x0, V4.bcast st.prev_3.x0, V4.bcast st.prev_5.x0,
   V4.bcast st.prev2_1.x0, V4.bcast st.prev2_3.x0, V4.bcast st.prev2_5.x0⟩

/-- The shared scalar step body of the prologue (blur.rs:281-305) and the
epilogue (blur.rs:385-406), which are textually identical in the source:
given the already-summed boundary input `sum`, compute
`out = sum*mul_in + mul_prev2*prev2`, rotate `prev2 := prev`, add
`mul_prev*prev`, set `prev := out`, and return the lane-0 total
`(out_1 + out_3 + out_5)[0]`. -/
def hScalarStep (rg : RecursiveGaussianG R) (sum : R) (st : HState R) : HState R × R :=
  let sumV := V4.bcast sum
  let out1 := (mulPrev2V rg.d1_1).mulAdd st.prev2_1 (sumV * mulInV rg.n2_1 rg.d1_1)
  let out3 := (mulPrev2V rg.d1_3).mulAdd st.prev2_3 (sumV * mulInV rg.n2_3 rg.d1_3)
  let out5 := (mulPrev2V rg.d1_5).mulAdd st.prev2_5 (sumV * mulInV rg.n2_5 rg.d1_5)
  let out1' := (mulPrevV rg.d1_1).mulAdd st.prev_1 out1
  let out3' := (mulPrevV rg.d1_3).mulAdd st.prev_3 out3
  let out5' := (mulPrevV rg.d1_5).mulAdd st.prev_5 out5
  (⟨out1', out3', out5', st.prev_1, st.prev_3, st.prev_5⟩, (out1' + out3' + out5').x0)

/-- Bounds-checked boundary input `x[n-radius-1] + x[n+radius-1]` with zero
padding (blur.rs:269-281): `left_val` requires `left >= 0`, `right_val`
requires `right < width`.  Both in-range indices are `< width` at every call
site, so `List.getD` matches the source's panicking index. -/
def hBoundarySum (rg : RecursiveGaussianG R) (input : List R) (width : ℕ) (n : ℤ) : R :=
  let left := n - (rg.radius : ℤ) - 1
  let right := n + (rg.radius : ℤ) - 1
  (if 0 ≤ left then input.getD left.toNat 0 else 0)
    + (if right < (width : ℤ) then input.getD right.toNat 0 else 0)

/-- Prologue loop of the horizontal pass (blur.rs:268-308):
`while n < first_aligned.min(width)`, one scalar step per iteration, writing
`output[n]` only once `n >= 0`. -/
def hPrologueGo (rg : RecursiveGaussianG R) (input : List R) (width : ℕ) :
    ℕ → ℤ → HState R → List R → ℤ × HState R × List R
  | 0, n, st, out => (n, st, out)
  | fuel + 1, n, st, out =>
    if n < min ((roundUpTo rg.radius 4 : ℕ) : ℤ) (width : ℤ) then
      let r := hScalarStep rg (hBoundarySum rg input width n) st
      let out' := if 0 ≤ n then out.set n.toNat r.2 else out
      hPrologueGo rg input width fuel (n + 1) r.1 out'
    else (n, st, out)

/-- One iteration body of the 4-wide unrolled interior loop
(blur.rs:321-366), from the vector `sum` of four consecutive boundary sums
and the carried state; returns the new state and the vector of four outputs
`out_1 + out_3 + out_5`.  The state update takes `prev2` from lane 2 and
`prev` from lane 3 of each output vector (blur.rs:359-364). -/
def hUnrolledBody (rg : RecursiveGaussianG R) (sum : V4 R) (st : HState R) :
    HState R × V4 R :=
  let mulIn1 := mulInV rg.n2_1 rg.d1_1
  let mulIn3 := mulInV rg.n2_3 rg.d1_3
  let mulIn5 := mulInV rg.n2_5 rg.d1_5
  let in0 := V4.bcast sum.x0
  let a1 := in0 * mulIn1
  let a3 := in0 * mulIn3
  let a5 := in0 * mulIn5
  let in1 := V4.bcast sum.x1
  let b1 := (V4.shiftLeftLanes 1 mulIn1).mulAdd in1 a1
  let b3 := (V4.shiftLeftLanes 1 mulIn3).mulAdd in1 a3
  let b5 := (V4.shiftLeftLanes 1 mulIn5).mulAdd in1 a5
  let in2 := V4.bcast sum.x2
  let c1 := (V4.shiftLeftLanes 2 mulIn1).mulAdd in2 b1
  let c3 := (V4.shiftLeftLanes 2 mulIn3).mulAdd in2 b3
  let c5 := (V4.shiftLeftLanes 2 mulIn5).mulAdd in2 b5
  let in3 := V4.bcast sum.x3
  let d1 := (V4.shiftLeftLanes 3 mulIn1).mulAdd in3 c1
  let d3 := (V4.shiftLeftLanes 3 mulIn3).mulAdd in3 c3
  let d5 := (V4.shiftLeftLanes 3 mulIn5).mulAdd in3 c5
  let e1 := (mulPrev2V rg.d1_1).mulAdd st.prev2_1 d1
  let e3 := (mulPrev2V rg.d1_3).mulAdd st.prev2_3 d3
  let e5 := (mulPrev2V rg.d1_5).mulAdd st.prev2_5 d5
  let f1 := (mulPrevV rg.d1_1).mulAdd st.prev_1 e1
  let f3 := (mulPrevV rg.d1_3).mulAdd st.prev_3 e3
  let f5 := (mulPrevV rg.d1_5).mulAdd st.prev_5 e5
  (⟨V4.bcast f1.x3, V4.bcast f3.x3, V4.bcast f5.x3,
    V4.bcast f1.x2, V4.bcast f3.x2, V4.bcast f5.x2⟩,
   f1 + f3 + f5)

/-- Unrolled interior loop of the horizontal pass (blur.rs:320-369):
`while n < width - radius + 1 - 3`, each iteration loading
`input[n-radius-1..][..4]` and `input[n+radius-1..][..4]`, running
`hUnrolledBody` and storing four outputs at `output[n..][..4]`.
(For the radius 5 this program uses, `n ≥ roundUpTo radius 4 ≥ radius + 1`
here, so all loads are the in-bounds loads of the source.) -/
def hUnrolledGo (rg : RecursiveGaussianG R) (input : List R) (width : ℕ) :
    ℕ → ℤ → HState R → List R → ℤ × HState R × List R
  | 0, n, st, out => (n, st, out)
  | fuel + 1, n, st, out =>
    if n < (width : ℤ) - (rg.radius : ℤ) + 1 - 3 then
      let in1 := V4.read input (n - (rg.radius : ℤ) - 1).toNat
      let in2 := V4.read input (n + (rg.radius : ℤ) - 1).toNat
      let r := hUnrolledBody rg (in1 + in2) st
      let out' := V4.write out n.toNat r.2
      hUnrolledGo rg input width fuel (n + 4) r.1 out'
    else (n, st, out)

/-- Epilogue loop of the horizontal pass (blur.rs:372-409): `while n < width`,
one scalar step per iteration, writing `output[n]` unconditionally (`n ≥ 0`
holds on entry). -/
def hEpilogueGo (rg : RecursiveGaussianG R) (input : List R) (width : ℕ) :
    ℕ → ℤ → HState R → List R → ℤ × HState R × List R
  | 0, n, st, out => (n, st, out)
  | fuel + 1, n, st, out =>
    if n < (width : ℤ) then
      let r := hScalarStep rg (hBoundarySum rg input width n) st
      hEpilogueGo rg input width fuel (n + 1) r.1 (out.set n.toNat r.2)
    else (n, st, out)

/-- One row of `fast_gaussian_horizontal` (the per-`y` body, blur.rs:193-409):
zero state, `n = -radius + 1`, prologue, lane-0 broadcast, unrolled interior,
epilogue.  `input` is the row slice of the input plane and `initOut` the row
slice of the output plane (whose prior contents survive at any position the
loops do not write). -/
def hRow (rg : RecursiveGaussianG R) (width : ℕ) (input initOut : List R) : List R :=
  let p := hPrologueGo rg input width (width + rg.radius + 8)
    (-(rg.radius : ℤ) + 1) HState.zero initOut
  let u := hUnrolledGo rg input width (width + 1) p.1 p.2.1.bcast0 p.2.2
  let e := hEpilogueGo rg input width (width + rg.radius + 8) u.1 u.2.1 u.2.2
  e.2.2

/-- Row iteration of `fast_gaussian_horizontal` (blur.rs:193-195): for each
`y`, filter `input[(y*width)..][..width]` into `output[(y*width)..][..width]`.
`rest` is the not-yet-processed tail of the output plane, so row `y`'s output
slice is `rest.take width`; the processed rows are re-assembled by
concatenation, which is exactly the in-place row writes of the source since
the row ranges are disjoint and processed in order. -/
def hPassGo (rg : RecursiveGaussianG R) (input : List R) (width : ℕ) :
    ℕ → ℕ → List R → List R
  | _, 0, rest => rest
  | y, rows + 1, rest =>
    hRow rg width ((input.drop (y * width)).take width) (rest.take width)
      ++ hPassGo rg input width (y + 1) rows (rest.drop width)

/-- Failure kinds observable from `Blur::blur`: the source has no error type
at all — every failure is a panic (`assert_eq!`, `assert!`, or an
out-of-bounds index).  `dimensionMismatch` exists only to express the spec's
claimed `DimensionMismatchError`; no code path of the embedding produces
it. -/
inductive BlurFailure where
  | assertFail : BlurFailure
  | dimensionMismatch : BlurFailure
deriving DecidableEq

/-- `RecursiveGaussian::fast_gaussian_horizontal` (blur.rs:183-411):
`assert_eq!(input.len(), output.len())`, then the per-row filter.  The second
condition embeds the row-slice bound `y*width + width <= output.len()` that
the source's slicing enforces by panicking (equivalent to
`width*height <= len` over all processed rows). -/
def hPass (rg : RecursiveGaussianG R) (input output : List R) (width height : ℕ) :
    Except BlurFailure (List R) :=
  if input.length ≠ output.length then .error .assertFail
  else if width * height ≤ output.length then
    .ok (hPassGo rg input width 0 height output)
  else .error .assertFail

/-- The ring buffer of the vertical pass (blur.rs:455): `3 * V_TOTAL_LANES *
V_MOD = 3 * 16 * 4` scalars, `chunks_exact_mut(64)` split into the three
per-resonance chunks `y_1`, `y_3`, `y_5` (blur.rs:614-617). -/
structure RingBuf (R : Type) where
  y1 : List R
  y3 : List R
  y5 : List R
deriving DecidableEq

/-- The zero-initialised ring buffer (blur.rs:455). -/
def RingBuf.init : RingBuf R :=
  ⟨List.replicate 64 0, List.replicate 64 0, List.replicate 64 0⟩

/-- `VertBlockInput` (blur.rs:653): either one input row slice or the two
top/bottom row slices to be summed.  A row slice is
`input.drop (row*width + x)` (or the 16-lane zero buffer of blur.rs:456). -/
inductive VInput (R : Type) where
  | single : List R → VInput R
  | double : List R → List R → VInput R

/-- Vector load from a `VertBlockInput` at lane offset `idx`
(blur.rs:659-673). -/
def VInput.get : VInput R → ℕ → V4 R
  | .single r, idx => V4.read r idx
  | .double a b, idx => V4.read a idx + V4.read b idx

/-- Inner `for idx_vec in 0..VECTORS` body of `vertical_block`
(blur.rs:624-648) for one `idx_vec`: load the summed input, read
`y[n-1]`/`y[n-2]` for each resonance from ring slots `n_1`/`n_2`, apply
`y = n2.mul_add(sum, d1.mul_neg_sub(y_n1, y_n2))`, store into slot `n_0`,
and write `y1 + y3 + y5` to the output when in a storing phase (`store`
holds the absolute base offset `n*width + x` of blur.rs:500). -/
def verticalBlockVec (rg : RecursiveGaussianG R) (inp : VInput R)
    (n0 n1 n2i idx : ℕ) (ring : RingBuf R) (out : List R) (store : Option ℕ) :
    RingBuf R × List R :=
  let sum := inp.get (idx * 4)
  let yn1_1 := V4.read ring.y1 (16 * n1 + idx * 4)
  let yn1_3 := V4.read ring.y3 (16 * n1 + idx * 4)
  let yn1_5 := V4.read ring.y5 (16 * n1 + idx * 4)
  let yn2_1 := V4.read ring.y1 (16 * n2i + idx * 4)
  let yn2_3 := V4.read ring.y3 (16 * n2i + idx * 4)
  let yn2_5 := V4.read ring.y5 (16 * n2i + idx * 4)
  let y1v := (V4.bcast rg.n2_1).mulAdd sum ((V4.bcast rg.d1_1).mulNegSub yn1_1 yn2_1)
  let y3v := (V4.bcast rg.n2_3).mulAdd sum ((V4.bcast rg.d1_3).mulNegSub yn1_3 yn2_3)
  let y5v := (V4.bcast rg.n2_5).mulAdd sum ((V4.bcast rg.d1_5).mulNegSub yn1_5 yn2_5)
  let ring' : RingBuf R :=
    ⟨V4.write ring.y1 (16 * n0 + idx * 4) y1v,
     V4.write ring.y3 (16 * n0 + idx * 4) y3v,
     V4.write ring.y5 (16 * n0 + idx * 4) y5v⟩
  let out' := match store with
    | some base => V4.write out (base + idx * 4) (y1v + y3v + y5v)
    | none => out
  (ring', out')

/-- Iterate `verticalBlockVec` for `idx_vec` from `idx` while `left` vectors
remain (the `for idx_vec in 0..VECTORS` loop of blur.rs:624). -/
def verticalBlockGo (rg : RecursiveGaussianG R) (inp : VInput R)
    (n0 n1 n2i : ℕ) (store : Option ℕ) :
    ℕ → ℕ → RingBuf R → List R → RingBuf R × List R
  | _, 0, ring, out => (ring, out)
  | idx, left + 1, ring, out =>
    let r := verticalBlockVec rg inp n0 n1 n2i idx ring out store
    verticalBlockGo rg inp n0 n1 n2i store (idx + 1) left r.1 r.2

/-- `vertical_block::<VECTORS>` (blur.rs:602-651): increment `ctr`, compute
the ring slots `n_0 = ctr % 4`, `n_1 = (ctr - 1) % 4`,
`n_2 = (ctr - 2) % 4` — the last with wrapping `usize` subtraction, which
underflows on the very first block (`ctr = 1`; a debug-profile panic, and
`(2^64 - 1) % 4 = 3` under the release profile) — then run the lane loop. -/
def verticalBlock (rg : RecursiveGaussianG R) (vectors : ℕ) (inp : VInput R)
    (ctr : ℕ) (ring : RingBuf R) (out : List R) (store : Option ℕ) :
    ℕ × RingBuf R × List R :=
  let c := ctr + 1
  let n0 := c % 4
  let n1 := (c - 1) % 4
  let n2i := wrap64 ((c : ℤ) - 2) % 4
  let r := verticalBlockGo rg inp n0 n1 n2i store 0 vectors ring out
  (c, r.1, r.2)

/-- Warmup phase of `vertical_strip` (blur.rs:460-481): `while n < 0`, single
bottom input (zero row once `bottom >= height`), no output. -/
def vStripP1 (rg : RecursiveGaussianG R) (vectors : ℕ) (input : List R)
    (x width height : ℕ) :
    ℕ → ℤ → ℕ → RingBuf R → List R → ℤ × ℕ × RingBuf R × List R
  | 0, n, ctr, ring, out => (n, ctr, ring, out)
  | fuel + 1, n, ctr, ring, out =>
    if n < 0 then
      let bottom := n + (rg.radius : ℤ) - 1
      let inp := VInput.single (if bottom < (height : ℤ)
        then input.drop (bottom.toNat * width + x) else List.replicate 16 0)
      let r := verticalBlock rg vectors inp ctr ring out none
      vStripP1 rg vectors input x width height fuel (n + 1) r.1 r.2.1 r.2.2
    else (n, ctr, ring, out)

/-- Top-border output phase of `vertical_strip` (blur.rs:484-503):
`while n < (radius + 1).min(height)`, single bottom input with bounds check,
output stored at `n*width + x`. -/
def vStripP2 (rg : RecursiveGaussianG R) (vectors : ℕ) (input : List R)
    (x width height : ℕ) :
    ℕ → ℤ → ℕ → RingBuf R → List R → ℤ × ℕ × RingBuf R × List R
  | 0, n, ctr, ring, out => (n, ctr, ring, out)
  | fuel + 1, n, ctr, ring, out =>
    if n < min ((rg.radius : ℤ) + 1) (height : ℤ) then
      let bottom := n + (rg.radius : ℤ) - 1
      let inp := VInput.single (if bottom < (height : ℤ)
        then input.drop (bottom.toNat * width + x) else List.replicate 16 0)
      let r := verticalBlock rg vectors inp ctr ring out (some (n.toNat * width + x))
      vStripP2 rg vectors input x width height fuel (n + 1) r.1 r.2.1 r.2.2
    else (n, ctr, ring, out)

/-- Interior phase of `vertical_strip` (blur.rs:506-549):
`while n < (height - radius + 1 - V_PREFETCH_ROWS) as isize` (see
`vInteriorBound` for the wrapping bound), two unchecked inputs, output
stored.  The `_mm_prefetch` hints are semantically inert and omitted. -/
def vStripP3 (rg : RecursiveGaussianG R) (vectors : ℕ) (input : List R)
    (x width height : ℕ) :
    ℕ → ℤ → ℕ → RingBuf R → List R → ℤ × ℕ × RingBuf R × List R
  | 0, n, ctr, ring, out => (n, ctr, ring, out)
  | fuel + 1, n, ctr, ring, out =>
    if n < vInteriorBound height rg.radius then
      let top := n - (rg.radius : ℤ) - 1
      let bottom := n + (rg.radius : ℤ) - 1
      let inp := VInput.double (input.drop (top.toNat * width + x))
        (input.drop (bottom.toNat * width + x))
      let r := verticalBlock rg vectors inp ctr ring out (some (n.toNat * width + x))
      vStripP3 rg vectors input x width height fuel (n + 1) r.1 r.2.1 r.2.2
    else (n, ctr, ring, out)

/-- Bottom-border phase of `vertical_strip` (blur.rs:552-575):
`while n < height`, unchecked top input plus bounds-checked bottom input,
output stored. -/
def vStripP4 (rg : RecursiveGaussianG R) (vectors : ℕ) (input : List R)
    (x width height : ℕ) :
    ℕ → ℤ → ℕ → RingBuf R → List R → ℤ × ℕ × RingBuf R × List R
  | 0, n, ctr, ring, out => (n, ctr, ring, out)
  | fuel + 1, n, ctr, ring, out =>
    if n < (height : ℤ) then
      let top := n - (rg.radius : ℤ) - 1
      let bottom := n + (rg.radius : ℤ) - 1
      let inp := VInput.double (input.drop (top.toNat * width + x))
        (if bottom < (height : ℤ)
          then input.drop (bottom.toNat * width + x) else List.replicate 16 0)
      let r := verticalBlock rg vectors inp ctr ring out (some (n.toNat * width + x))
      vStripP4 rg vectors input x width height fuel (n + 1) r.1 r.2.1 r.2.2
    else (n, ctr, ring, out)

/-- `RecursiveGaussian::vertical_strip::<VECTORS>` (blur.rs:435-576): fresh
`ctr`/ring buffer, then the four phases starting at `n = -radius + 1`. -/
def verticalStrip (rg : RecursiveGaussianG R) (vectors : ℕ) (input : List R)
    (x width height : ℕ) (out : List R) : List R :=
  let f := height + rg.radius + 8
  let p1 := vStripP1 rg vectors input x width height f
    (-(rg.radius : ℤ) + 1) 0 RingBuf.init out
  let p2 := vStripP2 rg vectors input x width height f p1.1 p1.2.1 p1.2.2.1 p1.2.2.2
  let p3 := vStripP3 rg vectors input x width height f p2.1 p2.2.1 p2.2.2.1 p2.2.2.2
  let p4 := vStripP4 rg vectors input x width height f p3.1 p3.2.1 p3.2.2.1 p3.2.2.2
  p4.2.2.2

/-- First strip loop of `fast_gaussian_vertical` (blur.rs:424-427):
`while x + V_TOTAL_LANES <= width`, full cache-line strips
(`VECTORS = V_CACHE_LINE_VECTORS = 4`), `x += 16`. -/
def vStripsWide (rg : RecursiveGaussianG R) (input : List R) (width height : ℕ) :
    ℕ → ℕ → List R → ℕ × List R
  | 0, x, out => (x, out)
  | fuel + 1, x, out =>
    if x + 16 ≤ width then
      vStripsWide rg input width height fuel (x + 16)
        (verticalStrip rg 4 input x width height out)
    else (x, out)

/-- Second strip loop of `fast_gaussian_vertical` (blur.rs:428-431):
`while x < width`, single-vector strips, `x += V_MAX_LANES = 4`.  (For a
width that is not a multiple of 4 the source's final strip reads and writes
across row ends and panics past the plane's end; the embedding's reads
zero-fill and its writes drop, as noted on `V4.read`/`V4.write`.) -/
def vStripsNarrow (rg : RecursiveGaussianG R) (input : List R) (width height : ℕ) :
    ℕ → ℕ → List R → List R
  | 0, _, out => out
  | fuel + 1, x, out =>
    if x < width then
      vStripsNarrow rg input width height fuel (x + 4)
        (verticalStrip rg 1 input x width height out)
    else out

/-- The strip dispatch of `fast_gaussian_vertical` (blur.rs:423-431). -/
def vStrips (rg : RecursiveGaussianG R) (input : List R) (width height : ℕ)
    (out : List R) : List R :=
  let w := vStripsWide rg input width height (width + 1) 0 out
  vStripsNarrow rg input width height (width + 1) w.1 w.2

/-- `RecursiveGaussian::fast_gaussian_vertical` (blur.rs:414-432):
`assert_eq!(input.len(), output.len())`, then the strips. -/
def vPass (rg : RecursiveGaussianG R) (input output : List R) (width height : ℕ) :
    Except BlurFailure (List R) :=
  if input.length ≠ output.length then .error .assertFail
  else .ok (vStrips rg input width height output)

/-- The `Blur` engine (blur.rs:8): kernel, temporary plane, stored
dimensions, at the engine's scalar type. -/
structure BlurQ where
  kernel : RecursiveGaussianQ
  temp : List ℚ
  width : ℕ
  height : ℕ
deriving DecidableEq

/-- The body of `Blur::new(width, height)` (blur.rs:16-23) given its kernel:
a zeroed `width*height` temp buffer and the stored dimensions.  In the
source the kernel is always `RecursiveGaussian::new(1.5)`; that construction
panics on its own normalization assert (see `blurNew` and the C3/C9
theorems), so the kernel is taken as a parameter here. -/
def mkBlur (k : RecursiveGaussianQ) (width height : ℕ) : BlurQ :=
  ⟨k, List.replicate (width * height) 0, width, height⟩

/-- `Blur::new(width, height)` exactly as written (blur.rs:16-23): construct
`RecursiveGaussian::new(1.5)` — `1.5` is exact in `f64`, embedded as `3/2` —
and the buffers. -/
def blurNew (width height : ℕ) (o : Oracle) : Except ConstructError BlurQ :=
  match RecursiveGaussianQ.new (3 / 2) o with
  | .error e => .error e
  | .ok k => .ok (mkBlur k width height)

/-- `Blur::shrink_to(width, height)` (blur.rs:25-29): truncate `temp` to
`width * height` elements (`Vec::truncate` keeps the buffer when the
requested length is not smaller) and overwrite the stored dimensions.  It
has no failure path. -/
def BlurQ.shrinkTo (b : BlurQ) (width height : ℕ) : BlurQ :=
  ⟨b.kernel, b.temp.take (width * height), width, height⟩

/-- `Blur::blur_plane` (blur.rs:39-46): allocate a zeroed output of
`width * height`, run the horizontal pass from the plane into `temp`, then
the vertical pass from `temp` into the output.  Returns the output plane and
the engine with its mutated `temp`. -/
def BlurQ.blurPlane (b : BlurQ) (plane : List ℚ) :
    Except BlurFailure (List ℚ × BlurQ) := do
  let temp' ← hPass b.kernel plane b.temp b.width b.height
  let out ← vPass b.kernel temp' (List.replicate (b.width * b.height) 0) b.width b.height
  return (out, ⟨b.kernel, temp', b.width, b.height⟩)

/-- A three-plane image (`&[Vec<f32>; 3]`). -/
structure Img3 where
  p0 : List ℚ
  p1 : List ℚ
  p2 : List ℚ
deriving DecidableEq

/-- Channel selector for a three-plane image. -/
def Img3.ch (img : Img3) : Fin 3 → List ℚ
  | 0 => img.p0
  | 1 => img.p1
  | 2 => img.p2

/-- `Blur::blur` (blur.rs:31-37): blur the three channels in order through
the one shared engine (each call mutates `temp`). -/
def BlurQ.blur (b : BlurQ) (img : Img3) : Except BlurFailure (Img3 × BlurQ) := do
  let r0 ← b.blurPlane img.p0
  let r1 ← r0.2.blurPlane img.p1
  let r2 ← r1.2.blurPlane img.p2
  return (⟨r0.1, r1.1, r2.1⟩, r2.2)

/-- Carried scalars of the serial reference recurrence: the two most recent
outputs `y[n-1]`, `y[n-2]` of each resonance. -/
structure SerialState (R : Type) where
  p1 : R
  p3 : R
  p5 : R
  q1 : R
  q3 : R
  q5 : R
deriving DecidableEq

/-- Modelled from the spec: one step of the raw per-resonance recurrence of
§4.2, `y[n] = gain·(x[n-radius-1] + x[n+radius-1]) - feedback·y[n-1] -
y[n-2]`, with the per-position output being the sum of the three resonances'
contributions.  `sum` is the already-added boundary input. -/
def serialStepRef (rg : RecursiveGaussianG R) (sum : R) (st : SerialState R) :
    SerialState R × R :=
  let y1 := rg.n2_1 * sum - rg.d1_1 * st.p1 - st.q1
  let y3 := rg.n2_3 * sum - rg.d1_3 * st.p3 - st.q3
  let y5 := rg.n2_5 * sum - rg.d1_5 * st.p5 - st.q5
  (⟨y1, y3, y5, st.p1, st.p3, st.p5⟩, y1 + y3 + y5)

/-- Modelled from the spec: the zero-padded boundary input of §4.2, with
`x[i]` treated as 0 for `i < 0` or `i ≥ width`. -/
def refBoundarySum (rg : RecursiveGaussianG R) (input : List R) (width : ℕ)
    (n : ℤ) : R :=
  (if 0 ≤ n - (rg.radius : ℤ) - 1 ∧ n - (rg.radius : ℤ) - 1 < (width : ℤ)
    then input.getD (n - (rg.radius : ℤ) - 1).toNat 0 else 0)
    + (if 0 ≤ n + (rg.radius : ℤ) - 1 ∧ n + (rg.radius : ℤ) - 1 < (width : ℤ)
        then input.getD (n + (rg.radius : ℤ) - 1).toNat 0 else 0)

/-- Iteration of the serial reference recurrence over one row, writing the
outputs for `n ≥ 0`. -/
def serialReferenceGo (rg : RecursiveGaussianG R) (input : List R) (width : ℕ) :
    ℕ → ℤ → SerialState R → List R → List R
  | 0, _, _, out => out
  | fuel + 1, n, st, out =>
    if n < (width : ℤ) then
      let r := serialStepRef rg (refBoundarySum rg input width n) st
      serialReferenceGo rg input width fuel (n + 1) r.1
        (if 0 ≤ n then out.set n.toNat r.2 else out)
    else out

/-- Modelled from the spec: the serial reference semantics of one row of the
horizontal pass (§4.2).  The carried state is reset to zero at the start of
the row and the recurrence is evaluated serially from `n = -radius + 1` (for
every position before that, both padded inputs and the state are zero, so
this equals the recurrence started at any earlier point). -/
def serialReferenceRow (rg : RecursiveGaussianG R) (width : ℕ) (input : List R) :
    List R :=
  serialReferenceGo rg input width (width + rg.radius + 8)
    (-(rg.radius : ℤ) + 1) ⟨0, 0, 0, 0, 0, 0⟩ (List.replicate width 0)

/-- A simple concrete coefficient set used in the counterexample
evaluations: radius 5 (the radius the engine derives for its fixed
sigma = 1.5), gain 1 and feedback 1 on the first resonance, zero on the
others. -/
def rgToy : RecursiveGaussianG ℤ := ⟨5, 1, 0, 0, 1, 0, 0⟩

/-- A width-16 row that is zero except for a unit impulse at index 13. -/
def impulse13 : List ℤ :=
  [0, 0, 0, 0, 0, 0, 0, 0, 0, 0, 0, 0, 0, 1, 0, 0]

/-- The same toy coefficient set at the engine's scalar type, for engine
level counterexamples and witnesses. -/
def rgToyQ : RecursiveGaussianQ := ⟨5, 1, 0, 0, 1, 0, 0⟩

/-- Rational stand-ins (4 significant digits) for the transcendental values
`RecursiveGaussian::new(1.5)` computes at its `omega_k = k·π/(2·5.17385)`;
the structural disequalities proved about the derivation are robust to this
rounding (the exact `f64` run violates the normalization check by ≈ 298, and
the rational one by a similarly large margin). -/
def oracle15 : Oracle :=
  ⟨153 / 1000, 49 / 100, 949 / 1000,
   299 / 1000, 79 / 100, 999 / 1000,
   901 / 1000, 393 / 1000, 3 / 40,
   -(299 / 1000), 79 / 100, -(999 / 1000),
   477 / 500, 613 / 1000, 53 / 1000⟩

/-- The output of one `blur_plane` call as a function of kernel, dimensions
and input plane only: the temp buffer is replaced by an equally-long zero
buffer, which is sound because the horizontal pass overwrites every slot the
vertical pass reads (`hRow_agree`/`hPassGo_agree`). -/
def planeOut (k : RecursiveGaussianQ) (w h : ℕ) (plane : List ℚ) : List ℚ :=
  vStrips k (hPassGo k plane w 0 h (List.replicate (w * h) 0)) w h
    (List.replicate (w * h) 0)

/-- Evaluation of `getD` through a single `set`. -/
theorem getD_set (l : List R) (p j : ℕ) (v : R) :
    (l.set p v).getD j 0 = if p = j ∧ p < l.length then v else l.getD j 0 := by
  rw [List.getD_eq_getElem?_getD, List.getD_eq_getElem?_getD, List.getElem?_set]
  by_cases h : p = j
  · subst h
    by_cases hl : p < l.length
    · simp [hl]
    · simp [hl, List.getElem?_eq_none (Nat.le_of_not_lt hl)]
  · simp [h]

/-- `getD` past the end of a list is the default. -/
theorem getD_of_le (l : List R) (j : ℕ) (h : l.length ≤ j) : l.getD j 0 = 0 := by
  rw [List.getD_eq_getElem?_getD, List.getElem?_eq_none h]
  rfl

/-- `V4.write` preserves length. -/
theorem V4.write_length (l : List R) (p : ℕ) (v : V4 R) :
    (V4.write l p v).length = l.length := by
  simp [V4.write]

/-- The prologue loop preserves output length. -/
theorem hPrologueGo_length (rg : RecursiveGaussianG R) (input : List R) (width : ℕ) :
    ∀ fuel (n : ℤ) st (out : List R),
      ((hPrologueGo rg input width fuel n st out).2.2).length = out.length := by
  intro fuel
  induction fuel with
  | zero => intro n st out; rfl
  | succ f ih =>
    intro n st out
    rw [hPrologueGo]
    split
    · rw [ih]
      split <;> simp
    · rfl

/-- The unrolled interior loop preserves output length. -/
theorem hUnrolledGo_length (rg : RecursiveGaussianG R) (input : List R) (width : ℕ) :
    ∀ fuel (n : ℤ) st (out : List R),
      ((hUnrolledGo rg input width fuel n st out).2.2).length = out.length := by
  intro fuel
  induction fuel with
  | zero => intro n st out; rfl
  | succ f ih =>
    intro n st out
    rw [hUnrolledGo]
    split
    · rw [ih, V4.write_length]
    · rfl

/-- The epilogue loop preserves output length. -/
theorem hEpilogueGo_length (rg : RecursiveGaussianG R) (input : List R) (width : ℕ) :
    ∀ fuel (n : ℤ) st (out : List R),
      ((hEpilogueGo rg input width fuel n st out).2.2).length = out.length := by
  intro fuel
  induction fuel with
  | zero => intro n st out; rfl
  | succ f ih =>
    intro n st out
    rw [hEpilogueGo]
    split
    · rw [ih]; simp
    · rfl

/-- One filtered row has the length of its initial output slice. -/
theorem hRow_length (rg : RecursiveGaussianG R) (width : ℕ) (input initOut : List R) :
    (hRow rg width input initOut).length = initOut.length := by
  unfold hRow
  rw [hEpilogueGo_length, hUnrolledGo_length, hPrologueGo_length]

/-- The row iteration preserves plane length. -/
theorem hPassGo_length (rg : RecursiveGaussianG R) (input : List R) (width : ℕ) :
    ∀ rows y (rest : List R),
      (hPassGo rg input width y rows rest).length = rest.length := by
  intro rows
  induction rows with
  | zero => intro y rest; rfl
  | succ r ih =>
    intro y rest
    rw [hPassGo]
    rw [List.length_append, hRow_length, ih]
    simp only [List.length_take, List.length_drop]
    omega

/-- Two output buffers agree at every position strictly below `n`. -/
def AgreeBelow (n : ℤ) (o1 o2 : List R) : Prop :=
  ∀ j : ℕ, (j : ℤ) < n → o1.getD j 0 = o2.getD j 0

/-- Identical single writes preserve and extend agreement by one position. -/
theorem AgreeBelow.step_set {n : ℤ} {o1 o2 : List R}
    (h : AgreeBelow n o1 o2) (hl : o1.length = o2.length) (v : R) :
    AgreeBelow (n + 1) (o1.set n.toNat v) (o2.set n.toNat v) := by
  intro j hj
  rw [getD_set, getD_set, hl]
  by_cases hc : n.toNat = j ∧ n.toNat < o2.length
  · rw [if_pos hc, if_pos hc]
  · rw [if_neg hc, if_neg hc]
    by_cases hjn : (j : ℤ) < n
    · exact h j hjn
    · have hlen : o2.length ≤ j := by omega
      rw [getD_of_le _ _ (hl ▸ hlen), getD_of_le _ _ hlen]

/-- Without a write, agreement survives a step whose position is negative. -/
theorem AgreeBelow.succ_of_neg {n : ℤ} {o1 o2 : List R}
    (h : AgreeBelow n o1 o2) (hn : n < 0) : AgreeBelow (n + 1) o1 o2 := by
  intro j hj
  exact h j (by omega)

/-- Identical 4-lane writes at `n` extend agreement by four positions. -/
theorem AgreeBelow.write4 {n : ℤ} {o1 o2 : List R}
    (h : AgreeBelow n o1 o2) (hl : o1.length = o2.length) (v : V4 R) :
    AgreeBelow (n + 4) (V4.write o1 n.toNat v) (V4.write o2 n.toNat v) := by
  intro j hj
  unfold V4.write
  rw [getD_set, getD_set, getD_set, getD_set, getD_set, getD_set, getD_set, getD_set]
  simp only [List.length_set, hl]
  by_cases h3 : n.toNat + 2 + 1 = j ∧ n.toNat + 2 + 1 < o2.length
  · rw [if_pos h3, if_pos h3]
  · rw [if_neg h3, if_neg h3]
    by_cases h2 : n.toNat + 1 + 1 = j ∧ n.toNat + 1 + 1 < o2.length
    · rw [if_pos h2, if_pos h2]
    · rw [if_neg h2, if_neg h2]
      by_cases h1 : n.toNat + 1 = j ∧ n.toNat + 1 < o2.length
      · rw [if_pos h1, if_pos h1]
      · rw [if_neg h1, if_neg h1]
        by_cases h0 : n.toNat = j ∧ n.toNat < o2.length
        · rw [if_pos h0, if_pos h0]
        · rw [if_neg h0, if_neg h0]
          by_cases hjn : (j : ℤ) < n
          · exact h j hjn
          · have hlen : o2.length ≤ j := by omega
            rw [getD_of_le _ _ (hl ▸ hlen), getD_of_le _ _ hlen]

/-- The prologue's exit counter, carried state, and written positions do not
depend on the initial contents of the output buffer. -/
theorem hPrologueGo_agree (rg : RecursiveGaussianG R) (input : List R) (width : ℕ) :
    ∀ fuel (n : ℤ) st (o1 o2 : List R), o1.length = o2.length → AgreeBelow n o1 o2 →
      (hPrologueGo rg input width fuel n st o1).1 = (hPrologueGo rg input width fuel n st o2).1 ∧
      (hPrologueGo rg input width fuel n st o1).2.1 =
        (hPrologueGo rg input width fuel n st o2).2.1 ∧
      (hPrologueGo rg input width fuel n st o1).2.2.length = o1.length ∧
      AgreeBelow (hPrologueGo rg input width fuel n st o1).1
        (hPrologueGo rg input width fuel n st o1).2.2
        (hPrologueGo rg input width fuel n st o2).2.2 := by
  intro fuel
  induction fuel with
  | zero => intro n st o1 o2 hl h; exact ⟨rfl, rfl, rfl, h⟩
  | succ f ih =>
    intro n st o1 o2 hl h
    by_cases hc : n < min ((roundUpTo rg.radius 4 : ℕ) : ℤ) (width : ℤ)
    · have hstep : ∀ o : List R, hPrologueGo rg input width (f + 1) n st o =
          hPrologueGo rg input width f (n + 1)
            (hScalarStep rg (hBoundarySum rg input width n) st).1
            (if 0 ≤ n then o.set n.toNat (hScalarStep rg (hBoundarySum rg input width n) st).2
              else o) := by
        intro o
        rw [hPrologueGo, if_pos hc]
      rw [hstep o1, hstep o2]
      by_cases hn : 0 ≤ n
      · rw [if_pos hn, if_pos hn]
        have r := ih (n + 1) (hScalarStep rg (hBoundarySum rg input width n) st).1
          (o1.set n.toNat (hScalarStep rg (hBoundarySum rg input width n) st).2)
          (o2.set n.toNat (hScalarStep rg (hBoundarySum rg input width n) st).2)
          (by simp [hl]) (h.step_set hl _)
        exact ⟨r.1, r.2.1, by rw [r.2.2.1]; simp, r.2.2.2⟩
      · rw [if_neg hn, if_neg hn]
        exact ih (n + 1) _ o1 o2 hl (h.succ_of_neg (by omega))
    · have hstop : ∀ o : List R,
          hPrologueGo rg input width (f + 1) n st o = (n, st, o) := by
        intro o
        rw [hPrologueGo, if_neg hc]
      rw [hstop o1, hstop o2]
      exact ⟨rfl, rfl, rfl, h⟩

/-- The unrolled interior loop's exit counter, carried state, and written
positions do not depend on the initial contents of the output buffer. -/
theorem hUnrolledGo_agree (rg : RecursiveGaussianG R) (input : List R) (width : ℕ) :
    ∀ fuel (n : ℤ) st (o1 o2 : List R), o1.length = o2.length → AgreeBelow n o1 o2 →
      (hUnrolledGo rg input width fuel n st o1).1 = (hUnrolledGo rg input width fuel n st o2).1 ∧
      (hUnrolledGo rg input width fuel n st o1).2.1 =
        (hUnrolledGo rg input width fuel n st o2).2.1 ∧
      (hUnrolledGo rg input width fuel n st o1).2.2.length = o1.length ∧
      AgreeBelow (hUnrolledGo rg input width fuel n st o1).1
        (hUnrolledGo rg input width fuel n st o1).2.2
        (hUnrolledGo rg input width fuel n st o2).2.2 := by
  intro fuel
  induction fuel with
  | zero => intro n st o1 o2 hl h; exact ⟨rfl, rfl, rfl, h⟩
  | succ f ih =>
    intro n st o1 o2 hl h
    by_cases hc : n < (width : ℤ) - (rg.radius : ℤ) + 1 - 3
    · have hstep : ∀ o : List R, hUnrolledGo rg input width (f + 1) n st o =
          hUnrolledGo rg input width f (n + 4)
            (hUnrolledBody rg
              (V4.read input (n - (rg.radius : ℤ) - 1).toNat +
                V4.read input (n + (rg.radius : ℤ) - 1).toNat) st).1
            (V4.write o n.toNat
              (hUnrolledBody rg
                (V4.read input (n - (rg.radius : ℤ) - 1).toNat +
                  V4.read input (n + (rg.radius : ℤ) - 1).toNat) st).2) := by
        intro o
        rw [hUnrolledGo, if_pos hc]
      rw [hstep o1, hstep o2]
      have r := ih (n + 4)
        (hUnrolledBody rg
          (V4.read input (n - (rg.radius : ℤ) - 1).toNat +
            V4.read input (n + (rg.radius : ℤ) - 1).toNat) st).1
        (V4.write o1 n.toNat
          (hUnrolledBody rg
            (V4.read input (n - (rg.radius : ℤ) - 1).toNat +
              V4.read input (n + (rg.radius : ℤ) - 1).toNat) st).2)
        (V4.write o2 n.toNat
          (hUnrolledBody rg
            (V4.read input (n - (rg.radius : ℤ) - 1).toNat +
              V4.read input (n + (rg.radius : ℤ) - 1).toNat) st).2)
        (by rw [V4.write_length, V4.write_length, hl]) (h.write4 hl _)
      exact ⟨r.1, r.2.1, by rw [r.2.2.1, V4.write_length], r.2.2.2⟩
    · have hstop : ∀ o : List R,
          hUnrolledGo rg input width (f + 1) n st o = (n, st, o) := by
        intro o
        rw [hUnrolledGo, if_neg hc]
      rw [hstop o1, hstop o2]
      exact ⟨rfl, rfl, rfl, h⟩

/-- The epilogue's exit counter, carried state, and written positions do not
depend on the initial contents of the output buffer. -/
theorem hEpilogueGo_agree (rg : RecursiveGaussianG R) (input : List R) (width : ℕ) :
    ∀ fuel (n : ℤ) st (o1 o2 : List R), o1.length = o2.length → AgreeBelow n o1 o2 →
      (hEpilogueGo rg input width fuel n st o1).1 = (hEpilogueGo rg input width fuel n st o2).1 ∧
      (hEpilogueGo rg input width fuel n st o1).2.1 =
        (hEpilogueGo rg input width fuel n st o2).2.1 ∧
      (hEpilogueGo rg input width fuel n st o1).2.2.length = o1.length ∧
      AgreeBelow (hEpilogueGo rg input width fuel n st o1).1
        (hEpilogueGo rg input width fuel n st o1).2.2
        (hEpilogueGo rg input width fuel n st o2).2.2 := by
  intro fuel
  induction fuel with
  | zero => intro n st o1 o2 hl h; exact ⟨rfl, rfl, rfl, h⟩
  | succ f ih =>
    intro n st o1 o2 hl h
    by_cases hc : n < (width : ℤ)
    · have hstep : ∀ o : List R, hEpilogueGo rg input width (f + 1) n st o =
          hEpilogueGo rg input width f (n + 1)
            (hScalarStep rg (hBoundarySum rg input width n) st).1
            (o.set n.toNat (hScalarStep rg (hBoundarySum rg input width n) st).2) := by
        intro o
        rw [hEpilogueGo, if_pos hc]
      rw [hstep o1, hstep o2]
      have r := ih (n + 1) (hScalarStep rg (hBoundarySum rg input width n) st).1
        (o1.set n.toNat (hScalarStep rg (hBoundarySum rg input width n) st).2)
        (o2.set n.toNat (hScalarStep rg (hBoundarySum rg input width n) st).2)
        (by simp [hl]) (h.step_set hl _)
      exact ⟨r.1, r.2.1, by rw [r.2.2.1]; simp, r.2.2.2⟩
    · have hstop : ∀ o : List R,
          hEpilogueGo rg input width (f + 1) n st o = (n, st, o) := by
        intro o
        rw [hEpilogueGo, if_neg hc]
      rw [hstop o1, hstop o2]
      exact ⟨rfl, rfl, rfl, h⟩

/-- With enough fuel, the epilogue exits only once `n` has reached `width`. -/
theorem hEpilogueGo_exit (rg : RecursiveGaussianG R) (input : List R) (width : ℕ) :
    ∀ (fuel : ℕ) (n : ℤ) st (out : List R), (width : ℤ) - n ≤ (fuel : ℤ) →
      (width : ℤ) ≤ (hEpilogueGo rg input width fuel n st out).1 := by
  intro fuel
  induction fuel with
  | zero => intro n st out hf; rw [hEpilogueGo]; omega
  | succ f ih =>
    intro n st out hf
    rw [hEpilogueGo]
    by_cases hc : n < (width : ℤ)
    · rw [if_pos hc]
      exact ih (n + 1) _ _ (by omega)
    · rw [if_neg hc]
      omega

/-- The prologue counter never decreases. -/
theorem hPrologueGo_n_ge (rg : RecursiveGaussianG R) (input : List R) (width : ℕ) :
    ∀ fuel (n : ℤ) st (out : List R), n ≤ (hPrologueGo rg input width fuel n st out).1 := by
  intro fuel
  induction fuel with
  | zero => intro n st out; exact le_refl n
  | succ f ih =>
    intro n st out
    rw [hPrologueGo]
    by_cases hc : n < min ((roundUpTo rg.radius 4 : ℕ) : ℤ) (width : ℤ)
    · rw [if_pos hc]
      exact le_trans (by omega) (ih (n + 1) _ _)
    · rw [if_neg hc]

/-- The unrolled-loop counter never decreases. -/
theorem hUnrolledGo_n_ge (rg : RecursiveGaussianG R) (input : List R) (width : ℕ) :
    ∀ fuel (n : ℤ) st (out : List R), n ≤ (hUnrolledGo rg input width fuel n st out).1 := by
  intro fuel
  induction fuel with
  | zero => intro n st out; exact le_refl n
  | succ f ih =>
    intro n st out
    rw [hUnrolledGo]
    by_cases hc : n < (width : ℤ) - (rg.radius : ℤ) + 1 - 3
    · rw [if_pos hc]
      exact le_trans (by omega) (ih (n + 4) _ _)
    · rw [if_neg hc]

/-- A filtered row does not depend on the previous contents of its output
slice, as long as the slice is no longer than the row (`radius ≥ 1` is
needed: with radius 0 the loops would skip position 0 entirely and the old
value there would leak through — the engine's radius is 5). -/
theorem hRow_agree (rg : RecursiveGaussianG R) (width : ℕ) (input o1 o2 : List R)
    (hrad : 1 ≤ rg.radius) (hl : o1.length = o2.length) (hw : o1.length ≤ width) :
    hRow rg width input o1 = hRow rg width input o2 := by
  simp only [hRow]
  have hstart : AgreeBelow (-(rg.radius : ℤ) + 1) o1 o2 := by
    intro j hj
    omega
  obtain ⟨pn, pst, pl, pagree⟩ := hPrologueGo_agree rg input width (width + rg.radius + 8)
    (-(rg.radius : ℤ) + 1) HState.zero o1 o2 hl hstart
  rw [← pn, ← pst]
  set n1 := (hPrologueGo rg input width (width + rg.radius + 8)
    (-(rg.radius : ℤ) + 1) HState.zero o1).1 with hn1
  set s1 := (hPrologueGo rg input width (width + rg.radius + 8)
    (-(rg.radius : ℤ) + 1) HState.zero o1).2.1 with hs1
  set t1 := (hPrologueGo rg input width (width + rg.radius + 8)
    (-(rg.radius : ℤ) + 1) HState.zero o1).2.2 with ht1
  set t2 := (hPrologueGo rg input width (width + rg.radius + 8)
    (-(rg.radius : ℤ) + 1) HState.zero o2).2.2 with ht2
  have ht2l : t2.length = o2.length := by rw [ht2, hPrologueGo_length]
  have hpl : t1.length = t2.length := by rw [pl, ht2l, hl]
  obtain ⟨un, ust, ul, uagree⟩ :=
    hUnrolledGo_agree rg input width (width + 1) n1 s1.bcast0 t1 t2 hpl pagree
  rw [← un, ← ust]
  set n2 := (hUnrolledGo rg input width (width + 1) n1 s1.bcast0 t1).1 with hn2
  set s2 := (hUnrolledGo rg input width (width + 1) n1 s1.bcast0 t1).2.1 with hs2
  set u1 := (hUnrolledGo rg input width (width + 1) n1 s1.bcast0 t1).2.2 with hu1
  set u2 := (hUnrolledGo rg input width (width + 1) n1 s1.bcast0 t2).2.2 with hu2
  have hu2l : u2.length = t2.length := by rw [hu2, hUnrolledGo_length]
  have hul : u1.length = u2.length := by rw [ul, hu2l, hpl]
  obtain ⟨en, est, el, eagree⟩ :=
    hEpilogueGo_agree rg input width (width + rg.radius + 8) n2 s2 u1 u2 hul uagree
  have hge1 : -(rg.radius : ℤ) + 1 ≤ n1 := by
    rw [hn1]
    exact hPrologueGo_n_ge rg input width _ _ _ _
  have hge2 : n1 ≤ n2 := by
    rw [hn2]
    exact hUnrolledGo_n_ge rg input width _ _ _ _
  have hexit : (width : ℤ) ≤ (hEpilogueGo rg input width (width + rg.radius + 8) n2 s2 u1).1 :=
    hEpilogueGo_exit rg input width (width + rg.radius + 8) n2 s2 u1 (by push_cast; omega)
  apply List.ext_getElem
  · rw [el, hEpilogueGo_length, hul]
  · intro i h1 h2
    have hil : i < o1.length := by
      rw [hEpilogueGo_length, ul, pl] at h1
      exact h1
    have hi : (i : ℤ) < (hEpilogueGo rg input width (width + rg.radius + 8) n2 s2 u1).1 := by
      have : i < width := lt_of_lt_of_le hil hw
      omega
    have := eagree i hi
    rw [List.getD_eq_getElem?_getD, List.getD_eq_getElem?_getD,
      List.getElem?_eq_getElem h1, List.getElem?_eq_getElem h2] at this
    exact this

/-- Row iteration does not depend on the initial plane contents when the
plane is fully covered by the processed rows. -/
theorem hPassGo_agree (rg : RecursiveGaussianG R) (input : List R) (width : ℕ)
    (hrad : 1 ≤ rg.radius) :
    ∀ rows y (rest1 rest2 : List R), rest1.length = rest2.length →
      rest1.length ≤ rows * width →
      hPassGo rg input width y rows rest1 = hPassGo rg input width y rows rest2 := by
  intro rows
  induction rows with
  | zero =>
    intro y rest1 rest2 hl hb
    have h1 : rest1 = [] := List.eq_nil_of_length_eq_zero (by omega)
    have h2 : rest2 = [] := List.eq_nil_of_length_eq_zero (by omega)
    rw [h1, h2]
  | succ r ih =>
    intro y rest1 rest2 hl hb
    rw [hPassGo, hPassGo]
    rw [hRow_agree rg width _ (rest1.take width) (rest2.take width) hrad
      (by simp [hl]) (by simp)]
    rw [ih (y + 1) (rest1.drop width) (rest2.drop width) (by simp [hl])
      (by
        have hmul : (r + 1) * width = r * width + width := by ring
        simp only [List.length_drop]
        omega)]

/-- `fast_gaussian_horizontal` succeeds when the length assert passes and
the plane covers the processed rows. -/
theorem hPass_ok (rg : RecursiveGaussianG R) (input output : List R) (w h : ℕ)
    (h1 : input.length = output.length) (h2 : w * h ≤ output.length) :
    hPass rg input output w h = .ok (hPassGo rg input w 0 h output) := by
  unfold hPass
  rw [if_neg (by simp [h1]), if_pos h2]

/-- `fast_gaussian_vertical` succeeds when the length assert passes. -/
theorem vPass_ok (rg : RecursiveGaussianG R) (input output : List R) (w h : ℕ)
    (h1 : input.length = output.length) :
    vPass rg input output w h = .ok (vStrips rg input w h output) := by
  unfold vPass
  rw [if_neg (by simp [h1])]

/-- `blur_plane` on a correctly sized engine and plane succeeds, returning
the filtered plane and the engine whose temp holds the horizontal pass's
result. -/
theorem blurPlane_ok (b : BlurQ) (plane : List ℚ)
    (ht : b.temp.length = b.width * b.height) (hp : plane.length = b.width * b.height) :
    b.blurPlane plane = .ok
      (vStrips b.kernel (hPassGo b.kernel plane b.width 0 b.height b.temp) b.width b.height
        (List.replicate (b.width * b.height) 0),
       ⟨b.kernel, hPassGo b.kernel plane b.width 0 b.height b.temp, b.width, b.height⟩) := by
  unfold BlurQ.blurPlane
  rw [hPass_ok b.kernel plane b.temp b.width b.height (by rw [hp, ht]) (by rw [ht])]
  show Except.bind _ _ = _
  rw [Except.bind]
  rw [vPass_ok b.kernel _ _ b.width b.height
    (by rw [hPassGo_length, ht, List.length_replicate])]
  rfl

/-- `blur_plane` on a correctly sized engine and plane returns `planeOut`,
which depends only on the kernel, the dimensions, and the plane itself. -/
theorem blurPlane_canonical (b : BlurQ) (plane : List ℚ)
    (ht : b.temp.length = b.width * b.height) (hp : plane.length = b.width * b.height)
    (hr : 1 ≤ b.kernel.radius) :
    b.blurPlane plane = .ok (planeOut b.kernel b.width b.height plane,
      ⟨b.kernel, hPassGo b.kernel plane b.width 0 b.height b.temp, b.width, b.height⟩) := by
  rw [blurPlane_ok b plane ht hp]
  have hind : hPassGo b.kernel plane b.width 0 b.height b.temp =
      hPassGo b.kernel plane b.width 0 b.height
        (List.replicate (b.width * b.height) 0) :=
    hPassGo_agree b.kernel plane b.width hr b.height 0 b.temp _
      (by rw [ht, List.length_replicate])
      (by rw [ht, Nat.mul_comm])
  unfold planeOut
  rw [hind]

/-- `blur` on a correctly sized engine and image succeeds and returns the
three independently filtered planes. -/
theorem blur_ok (b : BlurQ) (img : Img3) (ht : b.temp.length = b.width * b.height)
    (hr : 1 ≤ b.kernel.radius)
    (h0 : img.p0.length = b.width * b.height) (h1 : img.p1.length = b.width * b.height)
    (h2 : img.p2.length = b.width * b.height) :
    ∃ bf : BlurQ, b.blur img = .ok
      (⟨planeOut b.kernel b.width b.height img.p0,
        planeOut b.kernel b.width b.height img.p1,
        planeOut b.kernel b.width b.height img.p2⟩, bf) := by
  unfold BlurQ.blur
  rw [blurPlane_canonical b img.p0 ht h0 hr]
  show ∃ bf, Except.bind _ _ = _
  rw [Except.bind]
  have hb1 : (⟨b.kernel, hPassGo b.kernel img.p0 b.width 0 b.height b.temp,
      b.width, b.height⟩ : BlurQ).temp.length = b.width * b.height := by
    show (hPassGo b.kernel img.p0 b.width 0 b.height b.temp).length = _
    rw [hPassGo_length, ht]
  rw [blurPlane_canonical _ img.p1 hb1 h1 hr]
  show ∃ bf, Except.bind _ _ = _
  rw [Except.bind]
  have hb2 : (⟨b.kernel, hPassGo b.kernel img.p1 b.width 0 b.height
      (hPassGo b.kernel img.p0 b.width 0 b.height b.temp),
      b.width, b.height⟩ : BlurQ).temp.length = b.width * b.height := by
    show (hPassGo b.kernel img.p1 b.width 0 b.height _).length = _
    rw [hPassGo_length, hPassGo_length, ht]
  rw [blurPlane_canonical _ img.p2 hb2 h2 hr]
  show ∃ bf, Except.bind _ _ = _
  rw [Except.bind]
  exact ⟨_, rfl⟩

/-- `blur_plane` panics at the horizontal pass's length assert whenever the
plane's length differs from the temp buffer's. -/
theorem blurPlane_err (b : BlurQ) (plane : List ℚ) (h : plane.length ≠ b.temp.length) :
    b.blurPlane plane = .error .assertFail := by
  unfold BlurQ.blurPlane hPass
  rw [if_pos h]
  rfl

/-- C1: the claim states that the horizontal pass produces, at every output
position, the value of the serial reference recurrence (zero-padded
boundary, per-row zero state, summed resonances).  It does not: with
radius 5, a single resonance with gain 1 and feedback 1, width 16 and a unit
impulse at index 13, the serial reference gives 0 at output position 8,
while the pass (whose unrolled interior loop pairs input `j` of a 4-block
with `mul_in[lane + j]` — `shift_left_lanes` moves lanes toward index 0,
the reverse of the expansion documented in the source's sympy comment)
writes `-d1·n2 = -1` there, so the two rows differ. -/
theorem c1_horizontal_pass_differs_from_serial_reference :
    (hRow rgToy 16 impulse13 (List.replicate 16 0)).getD 8 0 = -1 ∧
    (serialReferenceRow rgToy 16 impulse13).getD 8 0 = 0 ∧
    hRow rgToy 16 impulse13 (List.replicate 16 0) ≠ serialReferenceRow rgToy 16 impulse13 := by
  decide

/-- C2: the claim states that the 4-wide unrolled interior evaluation equals
four steps of the serial raw recurrence from the same carried state, in
exact arithmetic.  It does not: from zero state with boundary sums
(0, 1, 0, 0) (radius 5; gain 1, feedback 1 on one resonance), four serial
steps produce the outputs (0, 1, -1, 0), while `hUnrolledBody` — the exact
blur.rs:321-366 block — produces (-1, 0, 1, 0). -/
theorem c2_unrolled_block_differs_from_serial_steps :
    (serialStepRef rgToy 0 ⟨0, 0, 0, 0, 0, 0⟩).2 = 0 ∧
    (serialStepRef rgToy 1 (serialStepRef rgToy 0 ⟨0, 0, 0, 0, 0, 0⟩).1).2 = 1 ∧
    (serialStepRef rgToy 0
      (serialStepRef rgToy 1 (serialStepRef rgToy 0 ⟨0, 0, 0, 0, 0, 0⟩).1).1).2 = -1 ∧
    (serialStepRef rgToy 0 (serialStepRef rgToy 0
      (serialStepRef rgToy 1 (serialStepRef rgToy 0 ⟨0, 0, 0, 0, 0, 0⟩).1).1).1).2 = 0 ∧
    (hUnrolledBody rgToy ⟨0, 1, 0, 0⟩ HState.zero).2 = ⟨-1, 0, 1, 0⟩ ∧
    (⟨-1, 0, 1, 0⟩ : V4 ℤ) ≠ ⟨0, 1, -1, 0⟩ := by
  decide

/-- C3: the claim states that the β computed at construction solves the
linear system `A·β = γ`.  It does not: the source computes `beta = a *
gamma` (blur.rs:123), the matrix TIMES γ; at the (nonsingular) matrix the
derivation builds for sigma = 1.5, `A·(A·γ) ≠ γ`, so the computed β is not
the system's solution (whose first row would force the normalization sum to
be exactly 1 — instead the sum lands near -297 and the construction assert
fails, see C9). -/
theorem c3_beta_is_not_the_solution_of_the_system :
    (matA oracle15).det ≠ 0 ∧
    (matA oracle15).mulVec (betaCode (3 / 2) oracle15) ≠ gammaVec (3 / 2) oracle15 := by
  constructor
  · norm_num [Mat3Q.det, matA, oracle15, pVals, rVals, zeta15, zeta35, dCross]
  · norm_num [Mat3Q.mulVec, matA, oracle15, pVals, rVals, zeta15, zeta35, dCross, betaCode,
      gammaVec, rhoVals, radiusF, Vec3Q.mk.injEq]

/-- C4: the claim states that `Blur::new(8, 8)` followed by blurring an
impulse image completes and yields a symmetric decaying bump.  The program
never gets there: construction itself panics, because `beta = a * gamma`
(blur.rs:123) violates the normalization assert (blur.rs:128; the
embedding's rational oracle reproduces the failure).  Independently, the
vertical pass's interior-loop bound `height - radius + 1 - V_PREFETCH_ROWS`
(blur.rs:506) underflows `usize` for height 8 and radius 5 — a panic under
debug assertions; under the release profile it wraps to the negative isize
-4 and the loop is skipped. -/
theorem c4_blur_8x8_scenario_panics_at_construction :
    blurNew 8 8 oracle15 = .error .normalization ∧
    vInteriorBound 8 5 = -4 ∧ (8 : ℤ) - 5 + 1 - 8 < 0 := by
  have h : RecursiveGaussianQ.new (3 / 2) oracle15 = .error .normalization := by
    norm_num [RecursiveGaussianQ.new, abs_lt, normSum, Mat3Q.det, Mat3Q.mulVec, matA, oracle15,
      pVals, rVals, zeta15, zeta35, dCross, betaCode, gammaVec, rhoVals, radiusF]
  refine ⟨?_, by norm_num [vInteriorBound, usizeToIsize, wrap64], by norm_num⟩
  unfold blurNew
  rw [h]

/-- C5: engine construction fails exactly when the matrix `A` is singular
(the `try_inverse` assert, the spec's `InvertibleMatrixError`) or the
normalization sanity check `|β·p - 1| < 1e-12` is violated (the spec's
`NormalizationError`); both conditions are genuinely checked, in that
order, and a failure yields no engine value. -/
theorem c5_construction_fails_iff_singular_or_unnormalized :
    ∀ (sigma : ℚ) (o : Oracle),
      (RecursiveGaussianQ.new sigma o = .error .invertibleMatrix ↔ (matA o).det = 0) ∧
      (RecursiveGaussianQ.new sigma o = .error .normalization ↔
        ((matA o).det ≠ 0 ∧ ¬|normSum sigma o - 1| < 1 / 10 ^ 12)) ∧
      ((∃ e, RecursiveGaussianQ.new sigma o = .error e) ↔
        ((matA o).det = 0 ∨ ¬|normSum sigma o - 1| < 1 / 10 ^ 12)) := by
  intro sigma o
  unfold RecursiveGaussianQ.new
  by_cases h1 : (matA o).det = 0
  · simp [h1]
  · by_cases h2 : |normSum sigma o - 1| < ((10 : ℚ) ^ 12)⁻¹
    · simp [h1, h2, one_div]
    · simp [h1, h2, one_div]

/-- C6 counterexample: the claim states that a mismatched plane makes blur
fail with a typed `DimensionMismatchError`; in the source the failure is an
`assert_eq!` panic — there is no error type anywhere — so at the concrete
mismatched call the result is the panic, not the claimed typed error. -/
theorem c6_counterexample_failure_is_a_panic :
    (mkBlur rgToyQ 2 2).blurPlane [1, 2, 3] = .error .assertFail ∧
    (mkBlur rgToyQ 2 2).blurPlane [1, 2, 3] ≠ .error .dimensionMismatch := by
  have h : (mkBlur rgToyQ 2 2).blurPlane [1, 2, 3] = .error .assertFail := rfl
  refine ⟨h, ?_⟩
  rw [h]
  intro hcontra
  simp at hcontra

/-- C6 amended: a blur call in which some plane's length differs from the
stored width×height fails — by the `assert_eq!` length panic of the
horizontal pass, which fires before any element of the offending plane is
read — rather than returning a typed `DimensionMismatchError`; there is no
silent cropping or padding. -/
theorem c6_amended_mismatched_blur_panics (b : BlurQ) (img : Img3)
    (ht : b.temp.length = b.width * b.height)
    (hbad : img.p0.length ≠ b.width * b.height ∨ img.p1.length ≠ b.width * b.height ∨
      img.p2.length ≠ b.width * b.height) :
    b.blur img = .error .assertFail := by
  by_cases h0 : img.p0.length = b.width * b.height
  · by_cases h1 : img.p1.length = b.width * b.height
    · have h2 : img.p2.length ≠ b.width * b.height := by tauto
      unfold BlurQ.blur
      rw [blurPlane_ok b img.p0 ht h0]
      show Except.bind _ _ = _
      rw [Except.bind]
      have hb1 : (⟨b.kernel, hPassGo b.kernel img.p0 b.width 0 b.height b.temp,
          b.width, b.height⟩ : BlurQ).temp.length = b.width * b.height := by
        show (hPassGo b.kernel img.p0 b.width 0 b.height b.temp).length = _
        rw [hPassGo_length, ht]
      rw [blurPlane_ok _ img.p1 hb1 h1]
      show Except.bind _ _ = _
      rw [Except.bind]
      rw [blurPlane_err _ img.p2 (by
        show img.p2.length ≠ (hPassGo b.kernel img.p1 b.width 0 b.height _).length
        rw [hPassGo_length, hPassGo_length, ht]
        exact h2)]
      rfl
    · unfold BlurQ.blur
      rw [blurPlane_ok b img.p0 ht h0]
      show Except.bind _ _ = _
      rw [Except.bind]
      rw [blurPlane_err _ img.p1 (by
        show img.p1.length ≠ (hPassGo b.kernel img.p0 b.width 0 b.height b.temp).length
        rw [hPassGo_length, ht]
        exact h1)]
      rfl
  · unfold BlurQ.blur
    rw [blurPlane_err b img.p0 (by rw [ht]; exact h0)]
    rfl

/-- C6 witness: the amended theorem applied at a concrete 1×1 engine and an
image whose second plane has the wrong length. -/
theorem c6_amended_witness :
    (mkBlur rgToyQ 1 1).temp.length = 1 * 1 ∧
    (mkBlur rgToyQ 1 1).blur ⟨[1], [2, 3], [4]⟩ = .error .assertFail :=
  ⟨by decide, c6_amended_mismatched_blur_panics (mkBlur rgToyQ 1 1) ⟨[1], [2, 3], [4]⟩
    (by decide) (Or.inr (Or.inl (by decide)))⟩

/-- C7 counterexample: the claim states that a resize whose area exceeds the
original allocation fails with `CapacityExceededError`.  It does not fail at
all: `shrink_to(3, 3)` on an engine allocated for 2×2 returns normally
(`Vec::truncate` to a larger length is a no-op), updates the stored
dimensions to 3×3, and leaves the engine with a 4-element buffer — smaller
than the stored `width*height = 9`, exactly the state the claim says must
not arise. -/
theorem c7_counterexample_oversized_resize_succeeds :
    ((mkBlur rgToyQ 2 2).shrinkTo 3 3).width = 3 ∧
    ((mkBlur rgToyQ 2 2).shrinkTo 3 3).height = 3 ∧
    ((mkBlur rgToyQ 2 2).shrinkTo 3 3).temp.length = 4 ∧
    ((mkBlur rgToyQ 2 2).shrinkTo 3 3).temp.length < 3 * 3 := by
  decide

/-- C7 amended: `shrink_to` always succeeds; it truncates the temp buffer in
place to the first `width*height` elements (so its length becomes the
minimum of the request and the old length), overwrites the stored
dimensions, and when the requested area is not smaller than the buffer the
truncation is a no-op, leaving the buffer unchanged (and hence smaller than
the new `width*height` if the request grew) — there is no
`CapacityExceededError`; a later blur call then fails its length assert
rather than corrupting memory (see the C6 theorem). -/
theorem c7_amended_shrink_semantics (b : BlurQ) (w h : ℕ) :
    (b.shrinkTo w h).width = w ∧ (b.shrinkTo w h).height = h ∧
    (b.shrinkTo w h).kernel = b.kernel ∧
    (b.shrinkTo w h).temp = b.temp.take (w * h) ∧
    (b.shrinkTo w h).temp.length = min (w * h) b.temp.length ∧
    (b.temp.length ≤ w * h → (b.shrinkTo w h).temp = b.temp) := by
  refine ⟨rfl, rfl, rfl, rfl, by simp [BlurQ.shrinkTo], fun hle => ?_⟩
  simp [BlurQ.shrinkTo, List.take_of_length_le hle]

/-- C7 witness: the no-op branch of the amended theorem at a concrete
engine whose buffer (4 elements) is smaller than the requested 3×3 area. -/
theorem c7_amended_witness :
    (mkBlur rgToyQ 2 2).temp.length ≤ 3 * 3 ∧
    ((mkBlur rgToyQ 2 2).shrinkTo 3 3).temp = (mkBlur rgToyQ 2 2).temp :=
  ⟨by decide, (c7_amended_shrink_semantics (mkBlur rgToyQ 2 2) 3 3).2.2.2.2.2 (by decide)⟩

/-- C8: constructing at (W, H), shrinking to a smaller (W2, H2), and
blurring a (W2, H2)-sized image gives exactly the same result as
constructing fresh at (W2, H2) and blurring the same image: the shrunken
engine IS the fresh engine (the zero temp buffer truncates to the zero
temp buffer), and the kernel does not depend on the dimensions. -/
theorem c8_shrink_then_blur_equals_fresh_blur (k : RecursiveGaussianQ)
    (W H W2 H2 : ℕ) (img : Img3) (hW : W2 ≤ W) (hH : H2 ≤ H)
    (h0 : img.p0.length = W2 * H2) (h1 : img.p1.length = W2 * H2)
    (h2 : img.p2.length = W2 * H2) :
    ((mkBlur k W H).shrinkTo W2 H2).blur img = (mkBlur k W2 H2).blur img := by
  have hstate : (mkBlur k W H).shrinkTo W2 H2 = mkBlur k W2 H2 := by
    unfold mkBlur BlurQ.shrinkTo
    congr 1
    rw [List.take_replicate]
    congr 1
    exact Nat.min_eq_left (Nat.mul_le_mul hW hH)
  rw [hstate]

/-- C8 witness: the theorem applied at a 2×2 engine shrunk to 1×1 and a
concrete 1-pixel image. -/
theorem c8_witness :
    (1 ≤ 2 ∧ ([5] : List ℚ).length = 1 * 1) ∧
    ((mkBlur rgToyQ 2 2).shrinkTo 1 1).blur ⟨[5], [6], [7]⟩ =
      (mkBlur rgToyQ 1 1).blur ⟨[5], [6], [7]⟩ :=
  ⟨⟨by decide, by decide⟩,
    c8_shrink_then_blur_equals_fresh_blur rgToyQ 2 2 1 1 ⟨[5], [6], [7]⟩
      (by decide) (by decide) (by decide) (by decide) (by decide)⟩

/-- C9: the claim states that for every sigma in a reasonable range the
derivation succeeds and the DC-gain normalization `β·p = 1` holds within
1e-12.  It fails for the program's own sigma = 1.5: because
`beta = a * gamma` (blur.rs:123) instead of the solution of `A·β = γ`, the
normalization sum lands near -297 and the construction-time check
`assert!((sum - 1.0).abs() < 1E-12)` (blur.rs:128) panics. -/
theorem c9_normalization_check_fails_at_sigma_3_halves :
    RecursiveGaussianQ.new (3 / 2) oracle15 = .error .normalization := by
  norm_num [RecursiveGaussianQ.new, abs_lt, normSum, Mat3Q.det, Mat3Q.mulVec, matA, oracle15,
    pVals, rVals, zeta15, zeta35, dCross, betaCode, gammaVec, rhoVals, radiusF]

/-- C10: each output channel of `blur` depends only on its own input plane
and the engine's kernel/dimensions: two correctly sized images agreeing on
channel `i` blur to outputs agreeing on channel `i`.  The shared temp
buffer cannot leak one channel into another because the horizontal pass
overwrites every slot of it before the vertical pass reads it
(`hPassGo_agree`); `radius ≥ 1` is what guarantees full overwrite (the
engine's radius is 5). -/
theorem c10_output_channels_depend_only_on_own_plane (b : BlurQ) (imgA imgB : Img3)
    (ht : b.temp.length = b.width * b.height) (hr : 1 ≤ b.kernel.radius)
    (hA0 : imgA.p0.length = b.width * b.height) (hA1 : imgA.p1.length = b.width * b.height)
    (hA2 : imgA.p2.length = b.width * b.height)
    (hB0 : imgB.p0.length = b.width * b.height) (hB1 : imgB.p1.length = b.width * b.height)
    (hB2 : imgB.p2.length = b.width * b.height)
    (i : Fin 3) (hch : imgA.ch i = imgB.ch i) :
    ∃ outA outB stA stB, b.blur imgA = .ok (outA, stA) ∧ b.blur imgB = .ok (outB, stB) ∧
      outA.ch i = outB.ch i := by
  obtain ⟨bfA, hA⟩ := blur_ok b imgA ht hr hA0 hA1 hA2
  obtain ⟨bfB, hB⟩ := blur_ok b imgB ht hr hB0 hB1 hB2
  refine ⟨_, _, bfA, bfB, hA, hB, ?_⟩
  fin_cases i <;> simp only [Img3.ch] at hch ⊢ <;> rw [hch]

/-- C10 witness: the theorem applied at a concrete 1×1 engine and two
images agreeing on channel 0 and differing on the others. -/
theorem c10_witness :
    ((mkBlur rgToyQ 1 1).temp.length = 1 * 1 ∧
      (⟨[1], [2], [3]⟩ : Img3).ch 0 = (⟨[1], [5], [7]⟩ : Img3).ch 0) ∧
    ∃ outA outB stA stB,
      (mkBlur rgToyQ 1 1).blur ⟨[1], [2], [3]⟩ = .ok (outA, stA) ∧
      (mkBlur rgToyQ 1 1).blur ⟨[1], [5], [7]⟩ = .ok (outB, stB) ∧
      outA.ch 0 = outB.ch 0 :=
  ⟨⟨by decide, rfl⟩,
    c10_output_channels_depend_only_on_own_plane (mkBlur rgToyQ 1 1)
      ⟨[1], [2], [3]⟩ ⟨[1], [5], [7]⟩ (by decide) (by decide) (by decide) (by decide)
      (by decide) (by decide) (by decide) (by decide) 0 rfl⟩
